import Mathlib

/-!
# korefile.js : a project-description script

The script under study is nine lines long:

    1  var project = new Project('InstancedExample', __dirname);
    3  project.addFile('Sources/**');
    4  project.setDebugDir('Deployment');
    6  Project.createProject('Kore', __dirname).then((subproject) => {
    7      project.addSubProject(subproject);
    8      resolve(project);
    9  });

It is embedded as a deterministic small-step machine.  One step executes one
statement of the script (or lets one unit of time pass while the script is
suspended on the promise of line 6).  The `Project` class is not part of the
script: the machine takes its operations as a parameter (`ProjectApi`), and a
separate instance models them after the specification's data model.
-/

namespace Korefile

/-! ## The promise returned by `Project.createProject` -/

/-- How a promise ends: fulfilled with a value after `after` units of time,
rejected with a reason after `after` units of time, or never settled. -/
inductive Settlement (P : Type) where
  | fulfilled (after : Nat) (value : P)
  | rejected (after : Nat) (reason : String)
  | pending

/-! ## The external project-description interface -/

/-- The operations of the external `Project` class that the script calls.
`P` is the type of descriptor values.  Methods that mutate the receiver in
JavaScript are state-passing functions here; they are total (a call that
returns normally).  `createProject` returns a promise, represented by the way
it settles. -/
structure ProjectApi (P : Type) where
  new : String → String → P
  addFile : P → String → P
  setDebugDir : P → String → P
  addSubProject : P → P → P
  createProject : String → String → Settlement P

/-! ## Observable effects -/

/-- The calls made by the script, in the order in which they happen. -/
inductive Event (P : Type) where
  | construct (name : String) (basedir : String)
  | addFile (pattern : String)
  | setDebugDir (dir : String)
  | createProject (name : String) (dir : String)
  | thenRegistered
  | continuation (subproject : P)
  | addSubProject (child : P)
  | resolve (arg : Option P)

/-- Calls that mutate the parent descriptor. -/
def Event.isMutation {P : Type} : Event P → Bool
  | .addFile _ => true
  | .setDebugDir _ => true
  | .addSubProject _ => true
  | _ => false

/-- Calls that mutate the parent descriptor without involving the child. -/
def Event.isParentOnly {P : Type} : Event P → Bool
  | .addFile _ => true
  | .setDebugDir _ => true
  | _ => false

/-- Calls of the external callback `resolve`. -/
def Event.isResolve {P : Type} : Event P → Bool
  | .resolve _ => true
  | _ => false

/-- Calls of `setDebugDir`. -/
def Event.isSetDebugDir {P : Type} : Event P → Bool
  | .setDebugDir _ => true
  | _ => false

/-- Calls of `addSubProject`. -/
def Event.isAttach {P : Type} : Event P → Bool
  | .addSubProject _ => true
  | _ => false

/-! ## The machine -/

/-- Where control is: before one of the statements (named after its source
line), suspended on the promise, or stopped. -/
inductive Pc where
  | l1 | l3 | l4 | l6 | waiting | l7 | l8 | finished | unhandled | fault
  deriving DecidableEq, Repr

/-- The state of a run.  `project` is the script's variable of that name
(`none` is JavaScript's `undefined`, the value of a hoisted `var` before its
assignment), `promise` the promise created on line 6, `ticks` the time spent
suspended, `subproject` the parameter of the continuation, `log` the calls
made so far. -/
structure State (P : Type) where
  pc : Pc
  project : Option P
  promise : Option (Settlement P)
  ticks : Nat
  subproject : Option P
  log : List (Event P)

/-- The state in which the script starts. -/
def init {P : Type} : State P :=
  { pc := .l1, project := none, promise := none, ticks := 0, subproject := none, log := [] }

/-- Line 1: `var project = new Project('InstancedExample', __dirname);` -/
def line1 {P : Type} (api : ProjectApi P) (dirname : String) (s : State P) : State P :=
  { s with
    pc := .l3
    project := some (api.new "InstancedExample" dirname)
    log := s.log ++ [.construct "InstancedExample" dirname] }

/-- Line 3: `project.addFile('Sources/**');` -/
def line3 {P : Type} (api : ProjectApi P) (s : State P) : State P :=
  match s.project with
  | some p =>
    { s with
      pc := .l4
      project := some (api.addFile p "Sources/**")
      log := s.log ++ [.addFile "Sources/**"] }
  | none => { s with pc := .fault }

/-- Line 4: `project.setDebugDir('Deployment');` -/
def line4 {P : Type} (api : ProjectApi P) (s : State P) : State P :=
  match s.project with
  | some p =>
    { s with
      pc := .l6
      project := some (api.setDebugDir p "Deployment")
      log := s.log ++ [.setDebugDir "Deployment"] }
  | none => { s with pc := .fault }

/-- Line 6: `Project.createProject('Kore', __dirname).then(...)`.  The promise
is created, the continuation is registered on it with no rejection handler,
and the synchronous part of the script ends. -/
def line6 {P : Type} (api : ProjectApi P) (dirname : String) (s : State P) : State P :=
  { s with
    pc := .waiting
    promise := some (api.createProject "Kore" dirname)
    log := s.log ++ [.createProject "Kore" dirname, .thenRegistered] }

/-- The script is suspended.  A fulfilled promise runs the continuation with
its value; a rejected promise has no handler, so the continuation is dropped;
an unsettled promise leaves the script suspended. -/
def await {P : Type} (s : State P) : State P :=
  match s.promise with
  | some (.fulfilled after v) =>
    if s.ticks < after then { s with ticks := s.ticks + 1 }
    else { s with pc := .l7, subproject := some v, log := s.log ++ [.continuation v] }
  | some (.rejected after _) =>
    if s.ticks < after then { s with ticks := s.ticks + 1 }
    else { s with pc := .unhandled }
  | some .pending => { s with ticks := s.ticks + 1 }
  | none => { s with pc := .fault }

/-- Line 7: `project.addSubProject(subproject);` -/
def line7 {P : Type} (api : ProjectApi P) (s : State P) : State P :=
  match s.project, s.subproject with
  | some p, some c =>
    { s with
      pc := .l8
      project := some (api.addSubProject p c)
      log := s.log ++ [.addSubProject c] }
  | _, _ => { s with pc := .fault }

/-- Line 8: `resolve(project);` -/
def line8 {P : Type} (s : State P) : State P :=
  { s with pc := .finished, log := s.log ++ [.resolve s.project] }

/-- One step of the script. -/
def step {P : Type} (api : ProjectApi P) (dirname : String) (s : State P) : State P :=
  match s.pc with
  | .l1 => line1 api dirname s
  | .l3 => line3 api s
  | .l4 => line4 api s
  | .l6 => line6 api dirname s
  | .waiting => await s
  | .l7 => line7 api s
  | .l8 => line8 s
  | .finished => s
  | .unhandled => s
  | .fault => s

/-- The state after `n` steps. -/
def run {P : Type} (api : ProjectApi P) (dirname : String) : Nat → State P
  | 0 => init
  | n + 1 => step api dirname (run api dirname n)

/-- The arguments with which `resolve` has been called, oldest first. -/
def resolved {P : Type} : List (Event P) → List (Option P)
  | [] => []
  | .resolve a :: es => a :: resolved es
  | _ :: es => resolved es

/-! ## The script with lines 3 and 4 exchanged -/

/-- Control continues at `next` unless the statement faulted. -/
def continueAt {P : Type} (next : Pc) (s : State P) : State P :=
  if s.pc = .fault then s else { s with pc := next }

/-- One step of the variant script in which `setDebugDir` (line 4) is called
before `addFile` (line 3).  Control visits `l1, l4, l3, l6`. -/
def stepSwapped {P : Type} (api : ProjectApi P) (dirname : String) (s : State P) : State P :=
  match s.pc with
  | .l1 => continueAt .l4 (line1 api dirname s)
  | .l4 => continueAt .l3 (line4 api s)
  | .l3 => continueAt .l6 (line3 api s)
  | .l6 => line6 api dirname s
  | .waiting => await s
  | .l7 => line7 api s
  | .l8 => line8 s
  | .finished => s
  | .unhandled => s
  | .fault => s

/-- The state of the variant script after `n` steps. -/
def runSwapped {P : Type} (api : ProjectApi P) (dirname : String) : Nat → State P
  | 0 => init
  | n + 1 => stepSwapped api dirname (runSwapped api dirname n)

/-! ## The descriptor, after the specification's data model -/

/-- Modelled from the spec: the `Project` class of the external build tool is
not part of the script.  A project descriptor holds a name, a base directory,
the file-path patterns to include, an output (debug) directory, and its child
descriptors. -/
inductive Project where
  | mk (name : String) (basedir : String) (files : List String)
      (debugDir : Option String) (subProjects : List Project)

/-- The descriptor's name. -/
def Project.name : Project → String
  | .mk n _ _ _ _ => n

/-- The descriptor's base directory. -/
def Project.basedir : Project → String
  | .mk _ b _ _ _ => b

/-- The descriptor's file patterns. -/
def Project.files : Project → List String
  | .mk _ _ f _ _ => f

/-- The descriptor's output directory, `none` while it has not been set. -/
def Project.debugDir : Project → Option String
  | .mk _ _ _ d _ => d

/-- The descriptor's children. -/
def Project.subProjects : Project → List Project
  | .mk _ _ _ _ c => c

/-- Modelled from the spec: `new Project(name, basedir)` constructs a
descriptor from a name and a base directory; it has no pattern, no output
directory and no child yet. -/
def Project.new (name basedir : String) : Project :=
  .mk name basedir [] none []

/-- Modelled from the spec: `addFile` adds a glob pattern for source files. -/
def Project.addFile : Project → String → Project
  | .mk n b f d c, pattern => .mk n b (f ++ [pattern]) d c

/-- Modelled from the spec: `setDebugDir` sets the single output-directory
string. -/
def Project.setDebugDir : Project → String → Project
  | .mk n b f _ c, dir => .mk n b f (some dir) c

/-- Modelled from the spec: `addSubProject` attaches a completed child
descriptor. -/
def Project.addSubProject : Project → Project → Project
  | .mk n b f d c, child => .mk n b f d (c ++ [child])

/-- What the environment decides about the creation of a sub-project: it
completes after some time (the remaining content of the child is the
environment's), it fails after some time, or it never completes. -/
inductive Fate where
  | completes (after : Nat) (basedir : String) (files : List String)
      (debugDir : Option String) (subProjects : List Project)
  | fails (after : Nat) (reason : String)
  | never

/-- Modelled from the spec: `Project.createProject(name, dir)` belongs to the
external build tool.  It requests the creation of a named sub-project
descriptor; when the creation completes, the promise is fulfilled with a
descriptor bearing the requested name. -/
def Project.createProject (fate : Fate) (name : String) (_dir : String) : Settlement Project :=
  match fate with
  | .completes after b f d c => .fulfilled after (.mk name b f d c)
  | .fails after reason => .rejected after reason
  | .never => .pending

/-- The specification's descriptor operations as an interface instance. -/
def specApi (fate : Fate) : ProjectApi Project :=
  { new := Project.new
    addFile := Project.addFile
    setDebugDir := Project.setDebugDir
    addSubProject := Project.addSubProject
    createProject := Project.createProject fate }

/-! ## Values and traces that the theorems refer to -/

/-- The parent descriptor when the synchronous part of the script has ended. -/
def parentSync {P : Type} (api : ProjectApi P) (dirname : String) : P :=
  api.setDebugDir (api.addFile (api.new "InstancedExample" dirname) "Sources/**") "Deployment"

/-- The parent descriptor after the child `v` has been attached. -/
def parentFinal {P : Type} (api : ProjectApi P) (dirname : String) (v : P) : P :=
  api.addSubProject (parentSync api dirname) v

/-- The calls made by the synchronous part of the script. -/
def syncLog {P : Type} (dirname : String) : List (Event P) :=
  [.construct "InstancedExample" dirname, .addFile "Sources/**", .setDebugDir "Deployment",
   .createProject "Kore" dirname, .thenRegistered]

/-- The calls made by a run whose sub-project creation completed with `v`. -/
def fullLog {P : Type} (api : ProjectApi P) (dirname : String) (v : P) : List (Event P) :=
  syncLog dirname ++
    [.continuation v, .addSubProject v, .resolve (some (parentFinal api dirname v))]

/-! ## Closed forms of the run -/

/-- The suspended state after `t` units of waiting. -/
def waitingState {P : Type} (api : ProjectApi P) (dirname : String) (t : Nat) : State P :=
  { pc := .waiting, project := some (parentSync api dirname),
    promise := some (api.createProject "Kore" dirname), ticks := t, subproject := none,
    log := syncLog dirname }

/-- The state in which the continuation is about to run with `v`. -/
def resumedState {P : Type} (api : ProjectApi P) (dirname : String) (t : Nat) (v : P) : State P :=
  { pc := .l7, project := some (parentSync api dirname),
    promise := some (api.createProject "Kore" dirname), ticks := t, subproject := some v,
    log := syncLog dirname ++ [.continuation v] }

/-- The state after the child has been attached. -/
def attachedState {P : Type} (api : ProjectApi P) (dirname : String) (t : Nat) (v : P) : State P :=
  { pc := .l8, project := some (parentFinal api dirname v),
    promise := some (api.createProject "Kore" dirname), ticks := t, subproject := some v,
    log := syncLog dirname ++ [.continuation v, .addSubProject v] }

/-- The state after `resolve` has been called. -/
def finishedState {P : Type} (api : ProjectApi P) (dirname : String) (t : Nat) (v : P) : State P :=
  { pc := .finished, project := some (parentFinal api dirname v),
    promise := some (api.createProject "Kore" dirname), ticks := t, subproject := some v,
    log := fullLog api dirname v }

/-- The state after the promise has been rejected. -/
def unhandledState {P : Type} (api : ProjectApi P) (dirname : String) (t : Nat) : State P :=
  { waitingState api dirname t with pc := .unhandled }

/-! ## Invariants of the run -/

/-- The states a run can be in once the script has suspended. -/
def Late {P : Type} (api : ProjectApi P) (dirname : String) (s : State P) : Prop :=
  (∃ t, s = waitingState api dirname t) ∨
  (∃ t v, s = resumedState api dirname t v) ∨ (∃ t v, s = attachedState api dirname t v) ∨
  (∃ t v, s = finishedState api dirname t v) ∨ (∃ t, s = unhandledState api dirname t)

/-- The states a run can be in, whatever the promise does. -/
def Shape {P : Type} (api : ProjectApi P) (dirname : String) (s : State P) : Prop :=
  s = run api dirname 0 ∨ s = run api dirname 1 ∨ s = run api dirname 2 ∨
  s = run api dirname 3 ∨ Late api dirname s

/-- Two states that differ in the order of their logs only, past line 4. -/
def Agree {P : Type} (s s' : State P) : Prop :=
  s.pc = s'.pc ∧ s.project = s'.project ∧ s.promise = s'.promise ∧ s.ticks = s'.ticks ∧
  s.subproject = s'.subproject ∧ resolved s.log = resolved s'.log ∧
  s.pc ≠ .l1 ∧ s.pc ≠ .l3 ∧ s.pc ≠ .l4

/-! ## A concrete environment -/

/-- A sub-project creation that completes after two units of time. -/
def demoFate : Fate := .completes 2 "/work/Kore" ["Sources/**"] none []

/-- The child that `demoFate` produces for the name `Kore`. -/
def demoChild : Project := .mk "Kore" "/work/Kore" ["Sources/**"] none []

/-! ## Lemmas -/

section Lemmas

variable {P : Type} (api : ProjectApi P) (dirname : String)

theorem run_one : run api dirname 1 =
    { pc := .l3, project := some (api.new "InstancedExample" dirname), promise := none,
      ticks := 0, subproject := none, log := [.construct "InstancedExample" dirname] } := rfl

theorem run_two : run api dirname 2 =
    { pc := .l4, project := some (api.addFile (api.new "InstancedExample" dirname) "Sources/**"),
      promise := none, ticks := 0, subproject := none,
      log := [.construct "InstancedExample" dirname, .addFile "Sources/**"] } := rfl

theorem run_three : run api dirname 3 =
    { pc := .l6, project := some (parentSync api dirname), promise := none,
      ticks := 0, subproject := none,
      log := [.construct "InstancedExample" dirname, .addFile "Sources/**",
              .setDebugDir "Deployment"] } := rfl

theorem run_succ (n : Nat) : run api dirname (n + 1) = step api dirname (run api dirname n) := rfl

variable {api dirname}

theorem run_waiting_fulfilled {k : Nat} {v : P}
    (h : api.createProject "Kore" dirname = .fulfilled k v) (j : Nat) (hj : j ≤ k) :
    run api dirname (4 + j) = waitingState api dirname j := by
  induction j with
  | zero => rfl
  | succ j ih =>
    have hlt : j < k := hj
    rw [← Nat.add_assoc, run_succ, ih (Nat.le_of_lt hlt)]
    simp [step, waitingState, await, h, hlt]

theorem run_resumed {k : Nat} {v : P}
    (h : api.createProject "Kore" dirname = .fulfilled k v) :
    run api dirname (5 + k) = resumedState api dirname k v := by
  have e : 5 + k = (4 + k) + 1 := by omega
  rw [e, run_succ, run_waiting_fulfilled h k (Nat.le_refl k)]
  simp [step, waitingState, await, h, resumedState]

theorem run_attached {k : Nat} {v : P}
    (h : api.createProject "Kore" dirname = .fulfilled k v) :
    run api dirname (6 + k) = attachedState api dirname k v := by
  have e : 6 + k = (5 + k) + 1 := by omega
  rw [e, run_succ, run_resumed h]
  simp [step, resumedState, line7, attachedState, parentFinal]

theorem run_finished {k : Nat} {v : P}
    (h : api.createProject "Kore" dirname = .fulfilled k v) (m : Nat) :
    run api dirname (7 + k + m) = finishedState api dirname k v := by
  induction m with
  | zero =>
    have e : 7 + k + 0 = (6 + k) + 1 := by omega
    rw [e, run_succ, run_attached h]
    simp [step, attachedState, line8, finishedState, fullLog]
  | succ m ih =>
    rw [← Nat.add_assoc, run_succ, ih]
    rfl

theorem run_waiting_rejected {k : Nat} {r : String}
    (h : api.createProject "Kore" dirname = .rejected k r) (j : Nat) (hj : j ≤ k) :
    run api dirname (4 + j) = waitingState api dirname j := by
  induction j with
  | zero => rfl
  | succ j ih =>
    have hlt : j < k := hj
    rw [← Nat.add_assoc, run_succ, ih (Nat.le_of_lt hlt)]
    simp [step, waitingState, await, h, hlt]

theorem run_unhandled {k : Nat} {r : String}
    (h : api.createProject "Kore" dirname = .rejected k r) (m : Nat) :
    run api dirname (5 + k + m) = unhandledState api dirname k := by
  induction m with
  | zero =>
    have e : 5 + k + 0 = (4 + k) + 1 := by omega
    rw [e, run_succ, run_waiting_rejected h k (Nat.le_refl k)]
    simp [step, waitingState, await, h, unhandledState]
  | succ m ih =>
    rw [← Nat.add_assoc, run_succ, ih]
    rfl

theorem run_waiting_pending
    (h : api.createProject "Kore" dirname = .pending) (j : Nat) :
    run api dirname (4 + j) = waitingState api dirname j := by
  induction j with
  | zero => rfl
  | succ j ih =>
    rw [← Nat.add_assoc, run_succ, ih]
    simp [step, waitingState, await, h]

theorem late_step (s : State P) (hs : Late api dirname s) :
    Late api dirname (step api dirname s) := by
  rcases hs with ⟨t, h⟩ | ⟨t, v, h⟩ | ⟨t, v, h⟩ | ⟨t, v, h⟩ | ⟨t, h⟩
  · subst h
    cases hp : api.createProject "Kore" dirname with
    | fulfilled k v =>
      by_cases hlt : t < k
      · refine Or.inl ⟨t + 1, ?_⟩
        simp [step, waitingState, await, hp, hlt]
      · refine Or.inr (Or.inl ⟨t, v, ?_⟩)
        simp [step, waitingState, await, hp, hlt, resumedState]
    | rejected k r =>
      by_cases hlt : t < k
      · refine Or.inl ⟨t + 1, ?_⟩
        simp [step, waitingState, await, hp, hlt]
      · refine Or.inr (Or.inr (Or.inr (Or.inr ⟨t, ?_⟩)))
        simp [step, waitingState, await, hp, hlt, unhandledState]
    | pending =>
      refine Or.inl ⟨t + 1, ?_⟩
      simp [step, waitingState, await, hp]
  · subst h
    refine Or.inr (Or.inr (Or.inl ⟨t, v, ?_⟩))
    simp [step, resumedState, line7, attachedState, parentFinal]
  · subst h
    refine Or.inr (Or.inr (Or.inr (Or.inl ⟨t, v, ?_⟩)))
    simp [step, attachedState, line8, finishedState, fullLog]
  · subst h
    exact Or.inr (Or.inr (Or.inr (Or.inl ⟨t, v, rfl⟩)))
  · subst h
    exact Or.inr (Or.inr (Or.inr (Or.inr ⟨t, rfl⟩)))

theorem late_run_add (n m : Nat) (hs : Late api dirname (run api dirname n)) :
    Late api dirname (run api dirname (n + m)) := by
  induction m with
  | zero => exact hs
  | succ m ih => exact late_step _ ih

theorem shape_step (s : State P) (hs : Shape api dirname s) :
    Shape api dirname (step api dirname s) := by
  rcases hs with h | h | h | h | h
  · subst h; exact Or.inr (Or.inl rfl)
  · subst h; exact Or.inr (Or.inr (Or.inl rfl))
  · subst h; exact Or.inr (Or.inr (Or.inr (Or.inl rfl)))
  · subst h; exact Or.inr (Or.inr (Or.inr (Or.inr (Or.inl ⟨0, rfl⟩))))
  · exact Or.inr (Or.inr (Or.inr (Or.inr (late_step s h))))

theorem run_shape (api : ProjectApi P) (dirname : String) (n : Nat) :
    Shape api dirname (run api dirname n) := by
  induction n with
  | zero => exact Or.inl rfl
  | succ n ih => exact shape_step _ ih

/-- A list without a `resolve` call cannot be split at one. -/
theorem no_split_of_no_resolve (l pre post : List (Event P)) (a : Option P)
    (hl : ∀ e ∈ l, e.isResolve = false) : l ≠ pre ++ Event.resolve a :: post := by
  intro h
  have hm : Event.resolve a ∈ l := by rw [h]; simp
  have := hl _ hm
  simp [Event.isResolve] at this

/-- A list whose only `resolve` call is its last element splits at a `resolve`
call in one way only. -/
theorem split_at_last_resolve (m pre post : List (Event P)) (a : Option P) (b : Event P)
    (hm : ∀ e ∈ m, e.isResolve = false) (h : m ++ [b] = pre ++ Event.resolve a :: post) :
    pre = m ∧ post = [] ∧ b = Event.resolve a := by
  induction m generalizing pre with
  | nil =>
    cases pre with
    | nil => simp at h; exact ⟨rfl, h.2, h.1⟩
    | cons x xs => simp at h
  | cons y ys ih =>
    cases pre with
    | nil =>
      simp at h
      have := hm y (by simp)
      rw [h.1] at this
      simp [Event.isResolve] at this
    | cons x xs =>
      simp at h
      obtain ⟨h1, h2⟩ := h
      have := ih xs (fun e he => hm e (by simp [he])) (by simpa using h2)
      exact ⟨by rw [h1, this.1], this.2⟩

/-- In every state of a run, a `resolve` call in the log is the last call, it
follows the invocation of the continuation and the attachment of the child,
and its argument is the parent with that child attached. -/
theorem resolve_in_shape (s : State P) (hs : Shape api dirname s)
    (pre post : List (Event P)) (a : Option P) (h : s.log = pre ++ Event.resolve a :: post) :
    ∃ v, pre = syncLog dirname ++ [Event.continuation v, Event.addSubProject v] ∧ post = [] ∧
      a = some (parentFinal api dirname v) ∧ s.project = some (parentFinal api dirname v) := by
  rcases hs with hs | hs | hs | hs | ⟨t, hs⟩ | ⟨t, v, hs⟩ | ⟨t, v, hs⟩ | ⟨t, v, hs⟩ | ⟨t, hs⟩
  all_goals subst hs
  · exact absurd h (no_split_of_no_resolve _ _ _ _ (by simp [run, init]))
  · exact absurd h (no_split_of_no_resolve _ _ _ _ (by simp [run_one, Event.isResolve]))
  · exact absurd h (no_split_of_no_resolve _ _ _ _ (by simp [run_two, Event.isResolve]))
  · exact absurd h (no_split_of_no_resolve _ _ _ _ (by simp [run_three, Event.isResolve]))
  · exact absurd h (no_split_of_no_resolve _ _ _ _
      (by simp [waitingState, syncLog, Event.isResolve]))
  · exact absurd h (no_split_of_no_resolve _ _ _ _
      (by simp [resumedState, syncLog, Event.isResolve]))
  · exact absurd h (no_split_of_no_resolve _ _ _ _
      (by simp [attachedState, syncLog, Event.isResolve]))
  · have h2 : (syncLog dirname ++ [Event.continuation v, Event.addSubProject v]) ++
        [Event.resolve (some (parentFinal api dirname v))] = pre ++ Event.resolve a :: post := by
      rw [← h]; simp [finishedState, fullLog]
    have h3 := split_at_last_resolve _ pre post a _
      (by simp [syncLog, Event.isResolve]) h2
    refine ⟨v, h3.1, h3.2.1, ?_, rfl⟩
    have := h3.2.2
    simp at this
    exact this.symm
  · exact absurd h (no_split_of_no_resolve _ _ _ _
      (by simp [unhandledState, waitingState, syncLog, Event.isResolve]))

/-- Every index is in one of the phases of a run whose promise is settled
after `k` units of time. -/
theorem phase_cases (k n : Nat) :
    n = 0 ∨ n = 1 ∨ n = 2 ∨ n = 3 ∨ (∃ j, j ≤ k ∧ n = 4 + j) ∨ n = 5 + k ∨ n = 6 + k ∨
      ∃ m, n = 7 + k + m := by
  by_cases h0 : n = 0
  · exact Or.inl h0
  by_cases h1 : n = 1
  · exact Or.inr (Or.inl h1)
  by_cases h2 : n = 2
  · exact Or.inr (Or.inr (Or.inl h2))
  by_cases h3 : n = 3
  · exact Or.inr (Or.inr (Or.inr (Or.inl h3)))
  by_cases h4 : n ≤ 4 + k
  · exact Or.inr (Or.inr (Or.inr (Or.inr (Or.inl ⟨n - 4, by omega, by omega⟩))))
  by_cases h5 : n = 5 + k
  · exact Or.inr (Or.inr (Or.inr (Or.inr (Or.inr (Or.inl h5)))))
  by_cases h6 : n = 6 + k
  · exact Or.inr (Or.inr (Or.inr (Or.inr (Or.inr (Or.inr (Or.inl h6))))))
  · exact Or.inr (Or.inr (Or.inr (Or.inr (Or.inr (Or.inr (Or.inr ⟨n - (7 + k), by omega⟩))))))

/-- From the fourth step on the script has suspended. -/
theorem late_of_four_le (api : ProjectApi P) (dirname : String) (n : Nat) (hn : 4 ≤ n) :
    Late api dirname (run api dirname n) := by
  obtain ⟨m, rfl⟩ : ∃ m, n = 4 + m := ⟨n - 4, by omega⟩
  exact late_run_add 4 m (Or.inl ⟨0, rfl⟩)

/-- Once the script has suspended, the parent is the one the synchronous part
built, or that one with a child attached. -/
theorem late_project (s : State P) (hs : Late api dirname s) :
    s.project = some (parentSync api dirname) ∨
      ∃ v, s.project = some (parentFinal api dirname v) := by
  rcases hs with ⟨t, h⟩ | ⟨t, v, h⟩ | ⟨t, v, h⟩ | ⟨t, v, h⟩ | ⟨t, h⟩
  · subst h; exact Or.inl rfl
  · subst h; exact Or.inl rfl
  · subst h; exact Or.inr ⟨v, rfl⟩
  · subst h; exact Or.inr ⟨v, rfl⟩
  · subst h; exact Or.inl rfl

/-- Once the script has suspended, the log is the synchronous log followed by
calls none of which is `addFile` or `setDebugDir`. -/
theorem late_log (s : State P) (hs : Late api dirname s) :
    ∃ rest, s.log = syncLog dirname ++ rest ∧ ∀ e ∈ rest, e.isParentOnly = false := by
  rcases hs with ⟨t, h⟩ | ⟨t, v, h⟩ | ⟨t, v, h⟩ | ⟨t, v, h⟩ | ⟨t, h⟩
  · subst h; exact ⟨[], by simp [waitingState], by simp⟩
  · subst h; exact ⟨[.continuation v], rfl, by simp [Event.isParentOnly]⟩
  · subst h
    exact ⟨[.continuation v, .addSubProject v], rfl, by simp [Event.isParentOnly]⟩
  · subst h
    exact ⟨[.continuation v, .addSubProject v, .resolve (some (parentFinal api dirname v))],
      rfl, by simp [Event.isParentOnly]⟩
  · subst h; exact ⟨[], by simp [unhandledState, waitingState], by simp⟩

/-- A state of a run that is suspended is one of the waiting states. -/
theorem waiting_of_pc (s : State P) (hs : Shape api dirname s) (hpc : s.pc = .waiting) :
    ∃ t, s = waitingState api dirname t := by
  rcases hs with h | h | h | h | ⟨t, h⟩ | ⟨t, v, h⟩ | ⟨t, v, h⟩ | ⟨t, v, h⟩ | ⟨t, h⟩
  · subst h; simp [run, init] at hpc
  · subst h; simp [run_one] at hpc
  · subst h; simp [run_two] at hpc
  · subst h; simp [run_three] at hpc
  · exact ⟨t, h⟩
  · subst h; simp [resumedState] at hpc
  · subst h; simp [attachedState] at hpc
  · subst h; simp [finishedState] at hpc
  · subst h; simp [unhandledState] at hpc

/-- In every state of a run, `resolve` has not been called, or it has been
called once with the parent to which a child has been attached. -/
theorem resolved_shape (s : State P) (hs : Shape api dirname s) :
    resolved s.log = [] ∨ ∃ v, resolved s.log = [some (parentFinal api dirname v)] := by
  rcases hs with h | h | h | h | ⟨t, h⟩ | ⟨t, v, h⟩ | ⟨t, v, h⟩ | ⟨t, v, h⟩ | ⟨t, h⟩
  all_goals subst h
  · exact Or.inl rfl
  · exact Or.inl rfl
  · exact Or.inl rfl
  · exact Or.inl rfl
  · exact Or.inl rfl
  · exact Or.inl rfl
  · exact Or.inl rfl
  · exact Or.inr ⟨v, rfl⟩
  · exact Or.inl rfl

/-- In every state of a run, `setDebugDir` has been called at most once, and
with the argument `Deployment`. -/
theorem setDebugDir_shape (s : State P) (hs : Shape api dirname s) :
    s.log.countP Event.isSetDebugDir ≤ 1 ∧
      ∀ dir, Event.setDebugDir dir ∈ s.log → dir = "Deployment" := by
  rcases hs with h | h | h | h | ⟨t, h⟩ | ⟨t, v, h⟩ | ⟨t, v, h⟩ | ⟨t, v, h⟩ | ⟨t, h⟩
  all_goals subst h
  · exact ⟨by simp [run, init], by simp [run, init]⟩
  · exact ⟨by simp [run_one, Event.isSetDebugDir], by simp [run_one]⟩
  · exact ⟨by simp [run_two, Event.isSetDebugDir], by simp [run_two]⟩
  · refine ⟨by simp [run_three, Event.isSetDebugDir], ?_⟩
    intro dir hd; simp [run_three] at hd; exact hd
  · refine ⟨by simp [waitingState, syncLog, Event.isSetDebugDir], ?_⟩
    intro dir hd; simp [waitingState, syncLog] at hd; exact hd
  · refine ⟨by simp [resumedState, syncLog, Event.isSetDebugDir], ?_⟩
    intro dir hd; simp [resumedState, syncLog] at hd; exact hd
  · refine ⟨by simp [attachedState, syncLog, Event.isSetDebugDir], ?_⟩
    intro dir hd; simp [attachedState, syncLog] at hd; exact hd
  · refine ⟨by simp [finishedState, fullLog, syncLog, Event.isSetDebugDir], ?_⟩
    intro dir hd; simp [finishedState, fullLog, syncLog] at hd; exact hd
  · refine ⟨by simp [unhandledState, waitingState, syncLog, Event.isSetDebugDir], ?_⟩
    intro dir hd; simp [unhandledState, waitingState, syncLog] at hd; exact hd

/-- The fields of the parent at every step of a run over the modelled
descriptor. -/
theorem spec_project_fields (fate : Fate) (dirname : String) (n : Nat) (p : Project)
    (hp : (run (specApi fate) dirname n).project = some p) :
    p.name = "InstancedExample" ∧ p.basedir = dirname ∧
    (n < 2 → p.files = []) ∧ (2 ≤ n → p.files = ["Sources/**"]) ∧
    (n < 3 → p.debugDir = none) ∧ (3 ≤ n → p.debugDir = some "Deployment") := by
  by_cases h4 : 4 ≤ n
  · rcases late_project _ (late_of_four_le (specApi fate) dirname n h4) with h | ⟨v, h⟩
    · rw [h] at hp; simp at hp; subst hp
      exact ⟨rfl, rfl, fun h => by omega, fun _ => rfl, fun h => by omega, fun _ => rfl⟩
    · rw [h] at hp; simp at hp; subst hp
      exact ⟨rfl, rfl, fun h => by omega, fun _ => rfl, fun h => by omega, fun _ => rfl⟩
  · have : n = 0 ∨ n = 1 ∨ n = 2 ∨ n = 3 := by omega
    rcases this with e | e | e | e
    · subst e; simp [run, init] at hp
    · subst e; simp [run_one] at hp; subst hp
      exact ⟨rfl, rfl, fun _ => rfl, fun h => by omega, fun _ => rfl, fun h => by omega⟩
    · subst e; simp [run_two] at hp; subst hp
      exact ⟨rfl, rfl, fun h => by omega, fun _ => rfl, fun _ => rfl, fun h => by omega⟩
    · subst e; simp [run_three] at hp; subst hp
      exact ⟨rfl, rfl, fun h => by omega, fun _ => rfl, fun h => by omega, fun _ => rfl⟩

/-- The states of a run whose promise is rejected after `k` units of time. -/
theorem rejected_states {k : Nat} {r : String}
    (h : api.createProject "Kore" dirname = .rejected k r) (n : Nat) :
    n = 0 ∨ n = 1 ∨ n = 2 ∨ n = 3 ∨ (∃ j, run api dirname n = waitingState api dirname j) ∨
      (4 + k < n ∧ run api dirname n = unhandledState api dirname k) := by
  by_cases h4 : n < 4
  · omega
  by_cases h5 : n ≤ 4 + k
  · obtain ⟨j, rfl⟩ : ∃ j, n = 4 + j := ⟨n - 4, by omega⟩
    exact Or.inr (Or.inr (Or.inr (Or.inr (Or.inl ⟨j, run_waiting_rejected h j (by omega)⟩))))
  · obtain ⟨m, rfl⟩ : ∃ m, n = 5 + k + m := ⟨n - (5 + k), by omega⟩
    exact Or.inr (Or.inr (Or.inr (Or.inr (Or.inr ⟨by omega, run_unhandled h m⟩))))

/-- The list of `resolve` arguments of a concatenation. -/
theorem resolved_append (l m : List (Event P)) :
    resolved (l ++ m) = resolved l ++ resolved m := by
  induction l with
  | nil => rfl
  | cons e es ih => cases e <;> simp [resolved, ih]

theorem agree_step (s s' : State P) (h : Agree s s') :
    Agree (step api dirname s) (stepSwapped api dirname s') := by
  obtain ⟨pc, pr, pm, t, sub, log⟩ := s
  obtain ⟨pc', pr', pm', t', sub', log'⟩ := s'
  obtain ⟨h1, h2, h3, h4, h5, h6, h7, h8, h9⟩ := h
  simp only at h1 h2 h3 h4 h5 h6 h7 h8 h9
  subst h1 h2 h3 h4 h5
  cases pc with
  | l1 => exact absurd rfl h7
  | l3 => exact absurd rfl h8
  | l4 => exact absurd rfl h9
  | l6 => simp [Agree, step, stepSwapped, line6, resolved_append, h6]
  | waiting =>
    cases pm with
    | none => simp [Agree, step, stepSwapped, await, h6]
    | some st =>
      cases st with
      | fulfilled k v =>
        by_cases hlt : t < k
        · simp [Agree, step, stepSwapped, await, hlt, h6]
        · simp [Agree, step, stepSwapped, await, hlt, resolved_append, h6]
      | rejected k r =>
        by_cases hlt : t < k
        · simp [Agree, step, stepSwapped, await, hlt, h6]
        · simp [Agree, step, stepSwapped, await, hlt, h6]
      | pending => simp [Agree, step, stepSwapped, await, h6]
  | l7 =>
    cases pr <;> cases sub <;>
      simp [Agree, step, stepSwapped, line7, resolved_append, h6]
  | l8 => simp [Agree, step, stepSwapped, line8, resolved_append, h6, resolved]
  | finished => simp [Agree, step, stepSwapped, h6]
  | unhandled => simp [Agree, step, stepSwapped, h6]
  | fault => simp [Agree, step, stepSwapped, h6]

theorem runSwapped_succ (n : Nat) :
    runSwapped api dirname (n + 1) = stepSwapped api dirname (runSwapped api dirname n) := rfl

/-- Over the modelled descriptor the script and its variant agree from the
third step on. -/
theorem agree_spec (fate : Fate) (dirname : String) (m : Nat) :
    Agree (run (specApi fate) dirname (3 + m)) (runSwapped (specApi fate) dirname (3 + m)) := by
  induction m with
  | zero =>
    refine ⟨rfl, rfl, rfl, rfl, rfl, rfl, ?_, ?_, ?_⟩ <;> simp [run_three]
  | succ m ih =>
    rw [← Nat.add_assoc, run_succ, runSwapped_succ]
    exact agree_step _ _ ih

/-- A list with a single `addSubProject` call splits at an `addSubProject`
call in one way only. -/
theorem split_at_attach (m pre post tl : List (Event P)) (c : P) (b : Event P)
    (hm : ∀ e ∈ m, e.isAttach = false) (htl : ∀ e ∈ tl, e.isAttach = false)
    (h : m ++ b :: tl = pre ++ Event.addSubProject c :: post) :
    pre = m ∧ b = Event.addSubProject c ∧ post = tl := by
  induction m generalizing pre with
  | nil =>
    cases pre with
    | nil => simp at h; exact ⟨rfl, h.1, h.2.symm⟩
    | cons x xs =>
      simp at h
      have := htl (Event.addSubProject c) (by rw [h.2]; simp)
      simp [Event.isAttach] at this
  | cons y ys ih =>
    cases pre with
    | nil =>
      simp at h
      have := hm y (by simp)
      rw [h.1] at this
      simp [Event.isAttach] at this
    | cons x xs =>
      simp at h
      obtain ⟨h1, h2⟩ := h
      have := ih xs (fun e he => hm e (by simp [he])) (by simpa using h2)
      exact ⟨by rw [h1, this.1], this.2⟩

/-- A list without an `addSubProject` call cannot be split at one. -/
theorem no_split_of_no_attach (l pre post : List (Event P)) (c : P)
    (hl : ∀ e ∈ l, e.isAttach = false) : l ≠ pre ++ Event.addSubProject c :: post := by
  intro h
  have hm : Event.addSubProject c ∈ l := by rw [h]; simp
  have := hl _ hm
  simp [Event.isAttach] at this

/-- The log of a run at every step: one of the five logs of the synchronous
part, or, when the promise has been fulfilled with `v` after `k` units of time,
the synchronous log followed by the calls of the continuation. -/
theorem log_cases (api : ProjectApi P) (dirname : String) (n : Nat) :
    (∃ i, i ≤ 4 ∧ i ≤ n ∧ (run api dirname n).log = (run api dirname i).log) ∨
    (∃ k v, api.createProject "Kore" dirname = .fulfilled k v ∧
      ((n = 5 + k ∧ (run api dirname n).log = (run api dirname 4).log ++ [.continuation v]) ∨
       (n = 6 + k ∧ (run api dirname n).log =
          (run api dirname 4).log ++ [.continuation v, .addSubProject v]) ∨
       (7 + k ≤ n ∧ (run api dirname n).log = (run api dirname 4).log ++
          [.continuation v, .addSubProject v, .resolve (some (parentFinal api dirname v))]))) := by
  cases hp : api.createProject "Kore" dirname with
  | fulfilled k v =>
    rcases phase_cases k n with e | e | e | e | ⟨j, hj, e⟩ | e | e | ⟨m, e⟩
    · subst e; exact Or.inl ⟨0, by omega, by omega, rfl⟩
    · subst e; exact Or.inl ⟨1, by omega, by omega, rfl⟩
    · subst e; exact Or.inl ⟨2, by omega, by omega, rfl⟩
    · subst e; exact Or.inl ⟨3, by omega, by omega, rfl⟩
    · subst e
      exact Or.inl ⟨4, by omega, by omega, by rw [run_waiting_fulfilled hp j hj]; rfl⟩
    · subst e
      exact Or.inr ⟨k, v, rfl, Or.inl ⟨rfl, by rw [run_resumed hp]; rfl⟩⟩
    · subst e
      exact Or.inr ⟨k, v, rfl, Or.inr (Or.inl ⟨rfl, by rw [run_attached hp]; rfl⟩)⟩
    · subst e
      exact Or.inr ⟨k, v, rfl, Or.inr (Or.inr ⟨by omega, by rw [run_finished hp m]; rfl⟩)⟩
  | rejected k r =>
    rcases rejected_states hp n with e | e | e | e | ⟨j, e⟩ | ⟨hlt, e⟩
    · subst e; exact Or.inl ⟨0, by omega, by omega, rfl⟩
    · subst e; exact Or.inl ⟨1, by omega, by omega, rfl⟩
    · subst e; exact Or.inl ⟨2, by omega, by omega, rfl⟩
    · subst e; exact Or.inl ⟨3, by omega, by omega, rfl⟩
    · by_cases h4 : 4 ≤ n
      · exact Or.inl ⟨4, by omega, h4, by rw [e]; rfl⟩
      · have : n = 0 ∨ n = 1 ∨ n = 2 ∨ n = 3 := by omega
        rcases this with e | e | e | e
        · subst e; exact Or.inl ⟨0, by omega, by omega, rfl⟩
        · subst e; exact Or.inl ⟨1, by omega, by omega, rfl⟩
        · subst e; exact Or.inl ⟨2, by omega, by omega, rfl⟩
        · subst e; exact Or.inl ⟨3, by omega, by omega, rfl⟩
    · exact Or.inl ⟨4, by omega, by omega, by rw [e]; rfl⟩
  | pending =>
    by_cases h4 : 4 ≤ n
    · obtain ⟨j, rfl⟩ : ∃ j, n = 4 + j := ⟨n - 4, by omega⟩
      exact Or.inl ⟨4, by omega, by omega, by rw [run_waiting_pending hp j]; rfl⟩
    · have : n = 0 ∨ n = 1 ∨ n = 2 ∨ n = 3 := by omega
      rcases this with e | e | e | e
      · subst e; exact Or.inl ⟨0, by omega, by omega, rfl⟩
      · subst e; exact Or.inl ⟨1, by omega, by omega, rfl⟩
      · subst e; exact Or.inl ⟨2, by omega, by omega, rfl⟩
      · subst e; exact Or.inl ⟨3, by omega, by omega, rfl⟩

/-- The logs of the synchronous part hold no `addSubProject` call. -/
theorem sync_no_attach (api : ProjectApi P) (dirname : String) (i : Nat) (hi : i ≤ 4) :
    ∀ e ∈ (run api dirname i).log, e.isAttach = false := by
  have : i = 0 ∨ i = 1 ∨ i = 2 ∨ i = 3 ∨ i = 4 := by omega
  rcases this with e | e | e | e | e
  · subst e; simp [run, init]
  · subst e; simp [run_one, Event.isAttach]
  · subst e; simp [run_two, Event.isAttach]
  · subst e; simp [run_three, Event.isAttach]
  · subst e
    have h4 : run api dirname 4 = waitingState api dirname 0 := rfl
    simp [h4, waitingState, syncLog, Event.isAttach]

/-- In every run, an `addSubProject` call in the log has the child with which
the promise was fulfilled as its argument, and what precedes it is the
synchronous log followed by the entry of the continuation with that child. -/
theorem attach_in_log (api : ProjectApi P) (dirname : String) (n : Nat)
    (pre post : List (Event P)) (c : P)
    (h : (run api dirname n).log = pre ++ Event.addSubProject c :: post) :
    pre = (run api dirname 4).log ++ [Event.continuation c] ∧
      ∃ k, api.createProject "Kore" dirname = .fulfilled k c ∧ 6 + k ≤ n := by
  rcases log_cases api dirname n with ⟨i, hi, _, e⟩ | ⟨k, v, hp, ⟨hn, e⟩ | ⟨hn, e⟩ | ⟨hn, e⟩⟩
  · rw [e] at h
    exact absurd h (no_split_of_no_attach _ _ _ _ (sync_no_attach api dirname i hi))
  · rw [e] at h
    refine absurd h (no_split_of_no_attach _ _ _ _ ?_)
    intro x hx
    rcases List.mem_append.1 hx with hx | hx
    · exact sync_no_attach api dirname 4 (Nat.le_refl 4) x hx
    · simp at hx; subst hx; rfl
  · rw [e] at h
    have h2 : ((run api dirname 4).log ++ [Event.continuation v]) ++
        Event.addSubProject v :: [] = pre ++ Event.addSubProject c :: post := by
      rw [← h]; simp
    have h3 := split_at_attach _ pre post [] c _ (by
      intro x hx
      rcases List.mem_append.1 hx with hx | hx
      · exact sync_no_attach api dirname 4 (Nat.le_refl 4) x hx
      · simp at hx; subst hx; rfl) (by simp) h2
    have hv : v = c := by
      have := h3.2.1
      simpa using this
    subst hv
    exact ⟨h3.1, k, hp, by omega⟩
  · rw [e] at h
    have h2 : ((run api dirname 4).log ++ [Event.continuation v]) ++
        Event.addSubProject v :: [Event.resolve (some (parentFinal api dirname v))] =
        pre ++ Event.addSubProject c :: post := by
      rw [← h]; simp
    have h3 := split_at_attach _ pre post _ c _ (by
      intro x hx
      rcases List.mem_append.1 hx with hx | hx
      · exact sync_no_attach api dirname 4 (Nat.le_refl 4) x hx
      · simp at hx; subst hx; rfl) (by simp [Event.isAttach]) h2
    have hv : v = c := by
      have := h3.2.1
      simpa using this
    subst hv
    exact ⟨h3.1, k, hp, by omega⟩

end Lemmas

/-! ## The claims -/

/-- C1: in every run in which the creation of the sub-project completes,
`resolve` is called exactly once (no call during the first `6 + k` steps, one
call from step `7 + k` on), its argument is the parent descriptor, and the call
comes after `addSubProject` has attached the child; and in no run at all, however
the promise settles, does a `resolve` call precede the attachment of the child. -/
theorem resolve_exactly_once_after_attach {P : Type} (api : ProjectApi P) (dirname : String) :
    (∀ (k : Nat) (v : P), api.createProject "Kore" dirname = .fulfilled k v →
      (∀ n, n < 7 + k → resolved (run api dirname n).log = []) ∧
      (∀ n, 7 + k ≤ n →
        resolved (run api dirname n).log = [some (parentFinal api dirname v)] ∧
        (run api dirname n).project = some (parentFinal api dirname v) ∧
        (run api dirname n).log = syncLog dirname ++
          [.continuation v, .addSubProject v, .resolve (some (parentFinal api dirname v))])) ∧
    (∀ (n : Nat) (pre post : List (Event P)) (a : Option P),
      (run api dirname n).log = pre ++ .resolve a :: post →
      ∃ c, .addSubProject c ∈ pre ∧ post = [] ∧
        a = some (api.addSubProject (parentSync api dirname) c)) := by
  refine ⟨fun k v h => ⟨fun n hn => ?_, fun n hn => ?_⟩, fun n pre post a h => ?_⟩
  · rcases phase_cases k n with e | e | e | e | ⟨j, hj, e⟩ | e | e | ⟨m, e⟩
    · subst e; rfl
    · subst e; rfl
    · subst e; rfl
    · subst e; rfl
    · subst e; rw [run_waiting_fulfilled h j hj]; rfl
    · subst e; rw [run_resumed h]; rfl
    · subst e; rw [run_attached h]; rfl
    · omega
  · obtain ⟨m, rfl⟩ : ∃ m, n = 7 + k + m := ⟨n - (7 + k), by omega⟩
    rw [run_finished h m]
    exact ⟨rfl, rfl, rfl⟩
  · obtain ⟨v, h1, h2, h3, _⟩ := resolve_in_shape _ (run_shape api dirname n) pre post a h
    exact ⟨v, by simp [h1], h2, h3⟩

/-- Witness of C1: the run with `demoFate` calls `resolve` once, with the
parent to which the child has been attached. -/
theorem resolve_exactly_once_after_attach_witness :
    (specApi demoFate).createProject "Kore" "/work" = .fulfilled 2 demoChild ∧
    resolved (run (specApi demoFate) "/work" 9).log =
      [some (parentFinal (specApi demoFate) "/work" demoChild)] :=
  ⟨rfl, (((resolve_exactly_once_after_attach (specApi demoFate) "/work").1 2 demoChild rfl).2 9
    (by decide)).1⟩

/-- C2: in every run in which the creation of the sub-project completes, the
descriptor handed to `resolve` has exactly one child, that child is the value
with which the promise of `Project.createProject('Kore', __dirname)` was
fulfilled, and its name is `Kore`; at every earlier point of the run, up to
and including the step at which the continuation is entered, the parent has no
child. -/
theorem child_set_is_created_child (k : Nat) (b : String) (f : List String)
    (d : Option String) (c : List Project) (dirname : String) :
    (specApi (.completes k b f d c)).createProject "Kore" dirname =
      .fulfilled k (.mk "Kore" b f d c) ∧
    (Project.mk "Kore" b f d c).name = "Kore" ∧
    (∀ n, 7 + k ≤ n → ∃ p,
      resolved (run (specApi (.completes k b f d c)) dirname n).log = [some p] ∧
      p.subProjects = [.mk "Kore" b f d c]) ∧
    (∀ n, n < 6 + k → ∀ p,
      (run (specApi (.completes k b f d c)) dirname n).project = some p →
      p.subProjects = []) := by
  have h : (specApi (.completes k b f d c)).createProject "Kore" dirname =
      .fulfilled k (.mk "Kore" b f d c) := rfl
  refine ⟨rfl, rfl, fun n hn => ?_, fun n hn p hp => ?_⟩
  · obtain ⟨m, rfl⟩ : ∃ m, n = 7 + k + m := ⟨n - (7 + k), by omega⟩
    rw [run_finished h m]
    exact ⟨_, rfl, rfl⟩
  · rcases phase_cases k n with e | e | e | e | ⟨j, hj, e⟩ | e | e | ⟨m, e⟩
    · subst e; simp [run, init] at hp
    · subst e; simp [run_one] at hp; subst hp; rfl
    · subst e; simp [run_two] at hp; subst hp; rfl
    · subst e; simp [run_three] at hp; subst hp; rfl
    · subst e; rw [run_waiting_fulfilled h j hj] at hp
      simp [waitingState] at hp; subst hp; rfl
    · subst e; rw [run_resumed h] at hp
      simp [resumedState] at hp; subst hp; rfl
    · omega
    · omega

/-- Witness of C2: the run with `demoFate`, nine steps in. -/
theorem child_set_is_created_child_witness :
    ∃ p, resolved (run (specApi demoFate) "/work" 9).log = [some p] ∧
      p.subProjects = [demoChild] :=
  (child_set_is_created_child 2 "/work/Kore" ["Sources/**"] none [] "/work").2.2.1 9 (by decide)

/-- C3: the calls of a run come in a fixed order.  The first four steps
construct the parent, call `addFile`, call `setDebugDir`, and request the
creation of the sub-project; the log does not grow while the script is
suspended; when the creation completes the continuation runs, `addSubProject`
is called and then `resolve`.  Whatever the promise does, no `addFile` or
`setDebugDir` call is made after the script has suspended; the log of every
step is one of the logs of the synchronous part or, only when the promise has
been fulfilled and no earlier than that, the synchronous log followed by the
continuation's calls; an `addSubProject` call is preceded by exactly the
synchronous log and the entry of the continuation with the child with which
the promise was fulfilled; and a `resolve` call is preceded by exactly those
and that `addSubProject` call. -/
theorem fixed_order_of_effects {P : Type} (api : ProjectApi P) (dirname : String) :
    ((run api dirname 0).log = [] ∧
     (run api dirname 1).log = [.construct "InstancedExample" dirname] ∧
     (run api dirname 2).log = [.construct "InstancedExample" dirname, .addFile "Sources/**"] ∧
     (run api dirname 3).log = [.construct "InstancedExample" dirname, .addFile "Sources/**",
        .setDebugDir "Deployment"] ∧
     (run api dirname 4).log = [.construct "InstancedExample" dirname, .addFile "Sources/**",
        .setDebugDir "Deployment", .createProject "Kore" dirname, .thenRegistered] ∧
     (run api dirname 4).pc = .waiting) ∧
    (∀ (k : Nat) (v : P), api.createProject "Kore" dirname = .fulfilled k v →
      (∀ j, j ≤ k → (run api dirname (4 + j)).pc = .waiting ∧
        (run api dirname (4 + j)).log = (run api dirname 4).log) ∧
      (run api dirname (5 + k)).log = (run api dirname 4).log ++ [.continuation v] ∧
      (run api dirname (6 + k)).log =
        (run api dirname 4).log ++ [.continuation v, .addSubProject v] ∧
      (∀ m, (run api dirname (7 + k + m)).log = (run api dirname 4).log ++
        [.continuation v, .addSubProject v, .resolve (some (parentFinal api dirname v))])) ∧
    (∀ n m, (run api dirname n).pc = .waiting →
      ∃ rest, (run api dirname (n + m)).log = (run api dirname n).log ++ rest ∧
        ∀ e ∈ rest, e.isParentOnly = false) ∧
    (∀ n,
      (∃ i, i ≤ 4 ∧ i ≤ n ∧ (run api dirname n).log = (run api dirname i).log) ∨
      (∃ k v, api.createProject "Kore" dirname = .fulfilled k v ∧
        ((n = 5 + k ∧
            (run api dirname n).log = (run api dirname 4).log ++ [.continuation v]) ∨
         (n = 6 + k ∧ (run api dirname n).log =
            (run api dirname 4).log ++ [.continuation v, .addSubProject v]) ∨
         (7 + k ≤ n ∧ (run api dirname n).log = (run api dirname 4).log ++
            [.continuation v, .addSubProject v,
             .resolve (some (parentFinal api dirname v))])))) ∧
    (∀ (n : Nat) (pre post : List (Event P)) (c : P),
      (run api dirname n).log = pre ++ .addSubProject c :: post →
      pre = (run api dirname 4).log ++ [.continuation c] ∧
        ∃ k, api.createProject "Kore" dirname = .fulfilled k c ∧ 6 + k ≤ n) ∧
    (∀ (n : Nat) (pre post : List (Event P)) (a : Option P),
      (run api dirname n).log = pre ++ .resolve a :: post →
      ∃ c, pre = (run api dirname 4).log ++ [.continuation c, .addSubProject c] ∧
        ∃ k, api.createProject "Kore" dirname = .fulfilled k c ∧ 7 + k ≤ n) := by
  refine ⟨⟨rfl, rfl, rfl, rfl, rfl, rfl⟩, fun k v h => ⟨fun j hj => ?_, ?_, ?_, fun m => ?_⟩,
    fun n m hpc => ?_, log_cases api dirname, attach_in_log api dirname,
    fun n pre post a h => ?_⟩
  · rw [run_waiting_fulfilled h j hj]; exact ⟨rfl, rfl⟩
  · rw [run_resumed h]; rfl
  · rw [run_attached h]; rfl
  · rw [run_finished h m]; rfl
  · obtain ⟨t, ht⟩ := waiting_of_pc _ (run_shape api dirname n) hpc
    have hl : Late api dirname (run api dirname (n + m)) :=
      late_run_add n m (by rw [ht]; exact Or.inl ⟨t, rfl⟩)
    obtain ⟨rest, h1, h2⟩ := late_log _ hl
    exact ⟨rest, by rw [h1, ht]; rfl, h2⟩
  · obtain ⟨v, h1, _, _, _⟩ := resolve_in_shape _ (run_shape api dirname n) pre post a h
    have h2 : (run api dirname n).log =
        ((run api dirname 4).log ++ [Event.continuation v]) ++
          Event.addSubProject v :: (Event.resolve a :: post) := by
      rw [h, h1]
      have h4 : (run api dirname 4).log = syncLog dirname := rfl
      simp [h4]
    obtain ⟨_, k, hk, hn⟩ := attach_in_log api dirname n _ _ v h2
    refine ⟨v, by rw [h1]; rfl, k, hk, ?_⟩
    by_contra hlt
    have e : n = 6 + k := by omega
    subst e
    rw [run_attached hk] at h
    exact no_split_of_no_resolve _ _ _ _
      (by simp [attachedState, syncLog, Event.isResolve]) h

/-- Witness of C3: in the run with `demoFate` the script is suspended after
four steps, the five steps that follow add three calls, none of them `addFile`
or `setDebugDir`, and the `addSubProject` call that the log holds after eight
steps comes after the entry of the continuation. -/
theorem fixed_order_of_effects_witness :
    (specApi demoFate).createProject "Kore" "/work" = .fulfilled 2 demoChild ∧
    (run (specApi demoFate) "/work" (6 + 2)).log =
      (run (specApi demoFate) "/work" 4).log ++
        [.continuation demoChild, .addSubProject demoChild] ∧
    (run (specApi demoFate) "/work" 4).pc = .waiting ∧
    (∃ rest, (run (specApi demoFate) "/work" (4 + 5)).log =
        (run (specApi demoFate) "/work" 4).log ++ rest ∧
      ∀ e ∈ rest, e.isParentOnly = false) ∧
    ((run (specApi demoFate) "/work" 8).log =
      ((run (specApi demoFate) "/work" 4).log ++ [.continuation demoChild]) ++
        .addSubProject demoChild :: []) ∧
    ∃ k, (specApi demoFate).createProject "Kore" "/work" = .fulfilled k demoChild ∧ 6 + k ≤ 8 :=
  ⟨rfl, ((fixed_order_of_effects (specApi demoFate) "/work").2.1 2 demoChild rfl).2.2.1, rfl,
    (fixed_order_of_effects (specApi demoFate) "/work").2.2.1 4 5 rfl, rfl,
    ((fixed_order_of_effects (specApi demoFate) "/work").2.2.2.2.1 8
      ((run (specApi demoFate) "/work" 4).log ++ [Event.continuation demoChild]) [] demoChild
      rfl).2⟩

/-- C4: the descriptor handed to `resolve` is named `InstancedExample`.  The
parent bears that name at every step of every run, every argument of `resolve`
bears it, a run whose sub-project creation completes does hand over such a
descriptor, and none of `addFile`, `setDebugDir`, `addSubProject` changes a
descriptor's name. -/
theorem resolved_name_is_literal (fate : Fate) (dirname : String) :
    (∀ n p, (run (specApi fate) dirname n).project = some p → p.name = "InstancedExample") ∧
    (∀ n a, a ∈ resolved (run (specApi fate) dirname n).log →
      ∃ p, a = some p ∧ p.name = "InstancedExample") ∧
    (∀ k v, (specApi fate).createProject "Kore" dirname = .fulfilled k v →
      ∀ m, ∃ p, resolved (run (specApi fate) dirname (7 + k + m)).log = [some p] ∧
        p.name = "InstancedExample") ∧
    (∀ (q : Project) (x : String) (c : Project),
      (q.addFile x).name = q.name ∧ (q.setDebugDir x).name = q.name ∧
      (q.addSubProject c).name = q.name) := by
  refine ⟨fun n p hp => (spec_project_fields fate dirname n p hp).1, fun n a ha => ?_,
    fun k v h m => ?_, fun q x c => ?_⟩
  · rcases resolved_shape _ (run_shape (specApi fate) dirname n) with h | ⟨v, h⟩
    · rw [h] at ha; simp at ha
    · rw [h] at ha; simp at ha; exact ⟨_, ha, rfl⟩
  · rw [run_finished h m]; exact ⟨_, rfl, rfl⟩
  · cases q; exact ⟨rfl, rfl, rfl⟩

/-- Witness of C4: the descriptor handed over by the run with `demoFate`. -/
theorem resolved_name_is_literal_witness :
    (specApi demoFate).createProject "Kore" "/work" = .fulfilled 2 demoChild ∧
    ∃ p, resolved (run (specApi demoFate) "/work" (7 + 2 + 0)).log = [some p] ∧
      p.name = "InstancedExample" :=
  ⟨rfl, (resolved_name_is_literal demoFate "/work").2.2.1 2 demoChild rfl 0⟩

/-- C5: the descriptor handed to `resolve` has the file patterns
`Sources/**` and no other.  A freshly constructed descriptor has no pattern;
the parent has none during the first two steps and exactly `Sources/**` from
then on, in every run; a run whose sub-project creation completes hands over a
descriptor with exactly that pattern. -/
theorem resolved_files_are_sources (fate : Fate) (dirname : String) :
    (Project.new "InstancedExample" dirname).files = [] ∧
    (∀ n p, (run (specApi fate) dirname n).project = some p →
      (n < 2 → p.files = []) ∧ (2 ≤ n → p.files = ["Sources/**"])) ∧
    (∀ k v, (specApi fate).createProject "Kore" dirname = .fulfilled k v →
      ∀ m, ∃ p, resolved (run (specApi fate) dirname (7 + k + m)).log = [some p] ∧
        p.files = ["Sources/**"]) := by
  refine ⟨rfl, fun n p hp => ?_, fun k v h m => ?_⟩
  · have := spec_project_fields fate dirname n p hp
    exact ⟨this.2.2.1, this.2.2.2.1⟩
  · rw [run_finished h m]; exact ⟨_, rfl, rfl⟩

/-- Witness of C5: the descriptor handed over by the run with `demoFate`. -/
theorem resolved_files_are_sources_witness :
    (specApi demoFate).createProject "Kore" "/work" = .fulfilled 2 demoChild ∧
    ∃ p, resolved (run (specApi demoFate) "/work" (7 + 2 + 0)).log = [some p] ∧
      p.files = ["Sources/**"] :=
  ⟨rfl, (resolved_files_are_sources demoFate "/work").2.2 2 demoChild rfl 0⟩

/-- C6: the descriptor handed to `resolve` has the output directory
`Deployment`.  The parent has no output directory during the first three steps
and `Deployment` from then on, in every run; `setDebugDir` is called at most
once in a run and only with `Deployment`; a run whose sub-project creation
completes hands over a descriptor with that output directory. -/
theorem resolved_debugDir_is_deployment (fate : Fate) (dirname : String) :
    (∀ n p, (run (specApi fate) dirname n).project = some p →
      (n < 3 → p.debugDir = none) ∧ (3 ≤ n → p.debugDir = some "Deployment")) ∧
    (∀ n, (run (specApi fate) dirname n).log.countP Event.isSetDebugDir ≤ 1 ∧
      ∀ dir, Event.setDebugDir dir ∈ (run (specApi fate) dirname n).log → dir = "Deployment") ∧
    (∀ k v, (specApi fate).createProject "Kore" dirname = .fulfilled k v →
      ∀ m, ∃ p, resolved (run (specApi fate) dirname (7 + k + m)).log = [some p] ∧
        p.debugDir = some "Deployment") := by
  refine ⟨fun n p hp => ?_, fun n => setDebugDir_shape _ (run_shape (specApi fate) dirname n),
    fun k v h m => ?_⟩
  · have := spec_project_fields fate dirname n p hp
    exact ⟨this.2.2.2.2.1, this.2.2.2.2.2⟩
  · rw [run_finished h m]; exact ⟨_, rfl, rfl⟩

/-- Witness of C6: the descriptor handed over by the run with `demoFate`. -/
theorem resolved_debugDir_is_deployment_witness :
    (specApi demoFate).createProject "Kore" "/work" = .fulfilled 2 demoChild ∧
    ∃ p, resolved (run (specApi demoFate) "/work" (7 + 2 + 0)).log = [some p] ∧
      p.debugDir = some "Deployment" :=
  ⟨rfl, (resolved_debugDir_is_deployment demoFate "/work").2.2 2 demoChild rfl 0⟩

/-- C7: in every run in which the creation of the sub-project fails, the
continuation is not run: at no step has the continuation been entered,
`addSubProject` been called or `resolve` been called, and the parent has no
child; the script does not handle the rejection, which stays unhandled from
step `5 + k` on with the log as it was when the script suspended. -/
theorem rejection_is_not_handled (k : Nat) (r : String) (dirname : String) :
    (specApi (.fails k r)).createProject "Kore" dirname = .rejected k r ∧
    (∀ n, (∀ c, Event.continuation c ∉ (run (specApi (.fails k r)) dirname n).log) ∧
      (∀ c, Event.addSubProject c ∉ (run (specApi (.fails k r)) dirname n).log) ∧
      (∀ a, Event.resolve a ∉ (run (specApi (.fails k r)) dirname n).log) ∧
      (∀ p, (run (specApi (.fails k r)) dirname n).project = some p → p.subProjects = [])) ∧
    (∀ m, (run (specApi (.fails k r)) dirname (5 + k + m)).pc = .unhandled ∧
      (run (specApi (.fails k r)) dirname (5 + k + m)).log =
        (run (specApi (.fails k r)) dirname 4).log) := by
  have h : (specApi (.fails k r)).createProject "Kore" dirname = .rejected k r := rfl
  refine ⟨rfl, fun n => ?_, fun m => ?_⟩
  · rcases rejected_states h n with e | e | e | e | ⟨j, e⟩ | ⟨_, e⟩
    · subst e; simp [run, init]
    · subst e; simp [run_one]; rfl
    · subst e; simp [run_two]; rfl
    · subst e; simp [run_three]; rfl
    · rw [e]; simp [waitingState, syncLog]; rfl
    · rw [e]; simp [unhandledState, waitingState, syncLog]; rfl
  · rw [run_unhandled h m]; exact ⟨rfl, rfl⟩

/-- Witness of C7: a creation that fails after one unit of time; ten steps in,
the parent has no child. -/
theorem rejection_is_not_handled_witness :
    (run (specApi (.fails 1 "no korefile")) "/work" 10).project =
      some (parentSync (specApi (.fails 1 "no korefile")) "/work") ∧
    (parentSync (specApi (.fails 1 "no korefile")) "/work").subProjects = [] :=
  ⟨rfl, ((rejection_is_not_handled 1 "no korefile" "/work").2.1 10).2.2.2 _ rfl⟩

/-- C8: in every run in which the creation of the sub-project never
completes, `resolve` is never called and the script stays suspended from the
fourth step on; and in every run, however the promise settles, a `resolve`
call is preceded by the entry of the continuation. -/
theorem pending_never_resolves {P : Type} (api : ProjectApi P) (dirname : String) :
    (api.createProject "Kore" dirname = .pending →
      ∀ n, resolved (run api dirname n).log = [] ∧
        (∀ a, Event.resolve a ∉ (run api dirname n).log) ∧
        (4 ≤ n → (run api dirname n).pc = .waiting)) ∧
    (∀ (n : Nat) (pre post : List (Event P)) (a : Option P),
      (run api dirname n).log = pre ++ .resolve a :: post →
      ∃ c, Event.continuation c ∈ pre) := by
  refine ⟨fun h n => ?_, fun n pre post a h => ?_⟩
  · by_cases h4 : 4 ≤ n
    · obtain ⟨j, rfl⟩ : ∃ j, n = 4 + j := ⟨n - 4, by omega⟩
      rw [run_waiting_pending h j]
      exact ⟨rfl, by simp [waitingState, syncLog], fun _ => rfl⟩
    · have : n = 0 ∨ n = 1 ∨ n = 2 ∨ n = 3 := by omega
      rcases this with e | e | e | e
      · subst e; exact ⟨rfl, by simp [run, init], fun h => by omega⟩
      · subst e; exact ⟨rfl, by simp [run_one], fun h => by omega⟩
      · subst e; exact ⟨rfl, by simp [run_two], fun h => by omega⟩
      · subst e; exact ⟨rfl, by simp [run_three], fun h => by omega⟩
  · obtain ⟨v, h1, _, _, _⟩ := resolve_in_shape _ (run_shape api dirname n) pre post a h
    exact ⟨v, by simp [h1]⟩

/-- Witness of C8: a creation that never completes; a thousand steps in,
`resolve` has not been called and the script is suspended. -/
theorem pending_never_resolves_witness :
    (specApi .never).createProject "Kore" "/work" = .pending ∧
    resolved (run (specApi .never) "/work" 1000).log = [] ∧
    (run (specApi .never) "/work" 1000).pc = .waiting :=
  ⟨rfl, ((pending_never_resolves (specApi .never) "/work").1 rfl 1000).1,
    ((pending_never_resolves (specApi .never) "/work").1 rfl 1000).2.2 (by decide)⟩

/-- C9: the three mutations of a descriptor commute.  Applied to any
descriptor in any of the six orders, `addFile p`, `setDebugDir d` and
`addSubProject c` yield the same descriptor; each writes its own field and
leaves the name, the base directory and the other two fields as they were; and
the script with lines 3 and 4 exchanged hands the same descriptors to
`resolve` as the script does, at every step and however the promise settles. -/
theorem mutations_are_order_independent (q : Project) (p d : String) (c : Project) :
    (((q.addFile p).setDebugDir d).addSubProject c =
        ((q.addFile p).addSubProject c).setDebugDir d ∧
     ((q.addFile p).setDebugDir d).addSubProject c =
        ((q.setDebugDir d).addFile p).addSubProject c ∧
     ((q.addFile p).setDebugDir d).addSubProject c =
        ((q.setDebugDir d).addSubProject c).addFile p ∧
     ((q.addFile p).setDebugDir d).addSubProject c =
        ((q.addSubProject c).addFile p).setDebugDir d ∧
     ((q.addFile p).setDebugDir d).addSubProject c =
        ((q.addSubProject c).setDebugDir d).addFile p) ∧
    ((q.addFile p).name = q.name ∧ (q.addFile p).basedir = q.basedir ∧
     (q.addFile p).files = q.files ++ [p] ∧ (q.addFile p).debugDir = q.debugDir ∧
     (q.addFile p).subProjects = q.subProjects) ∧
    ((q.setDebugDir d).name = q.name ∧ (q.setDebugDir d).basedir = q.basedir ∧
     (q.setDebugDir d).files = q.files ∧ (q.setDebugDir d).debugDir = some d ∧
     (q.setDebugDir d).subProjects = q.subProjects) ∧
    ((q.addSubProject c).name = q.name ∧ (q.addSubProject c).basedir = q.basedir ∧
     (q.addSubProject c).files = q.files ∧ (q.addSubProject c).debugDir = q.debugDir ∧
     (q.addSubProject c).subProjects = q.subProjects ++ [c]) ∧
    (∀ (fate : Fate) (dirname : String) (n : Nat),
      resolved (runSwapped (specApi fate) dirname n).log =
        resolved (run (specApi fate) dirname n).log ∧
      (3 ≤ n → (runSwapped (specApi fate) dirname n).project =
        (run (specApi fate) dirname n).project)) := by
  refine ⟨?_, ?_, ?_, ?_, fun fate dirname n => ?_⟩
  · cases q; exact ⟨rfl, rfl, rfl, rfl, rfl⟩
  · cases q; exact ⟨rfl, rfl, rfl, rfl, rfl⟩
  · cases q; exact ⟨rfl, rfl, rfl, rfl, rfl⟩
  · cases q; exact ⟨rfl, rfl, rfl, rfl, rfl⟩
  · by_cases h3 : 3 ≤ n
    · obtain ⟨m, rfl⟩ : ∃ m, n = 3 + m := ⟨n - 3, by omega⟩
      have := agree_spec fate dirname m
      exact ⟨this.2.2.2.2.2.1.symm, fun _ => this.2.1.symm⟩
    · have : n = 0 ∨ n = 1 ∨ n = 2 := by omega
      rcases this with e | e | e
      · subst e; exact ⟨rfl, fun h => by omega⟩
      · subst e; exact ⟨rfl, fun h => by omega⟩
      · subst e; exact ⟨rfl, fun h => by omega⟩

/-- Witness of C9: the variant script, run with `demoFate`, hands over the
descriptor that the script hands over. -/
theorem mutations_are_order_independent_witness :
    resolved (runSwapped (specApi demoFate) "/work" 9).log =
      [some (parentFinal (specApi demoFate) "/work" demoChild)] ∧
    (runSwapped (specApi demoFate) "/work" 9).project =
      (run (specApi demoFate) "/work" 9).project :=
  ⟨((mutations_are_order_independent demoChild "x" "y" demoChild).2.2.2.2
      demoFate "/work" 9).1.trans rfl,
   ((mutations_are_order_independent demoChild "x" "y" demoChild).2.2.2.2
      demoFate "/work" 9).2 (by decide)⟩

/-- C10 as stated fails: in the run with `demoFate` the parent is mutated by
three calls between its construction and its hand-off to `resolve`, not by
two. -/
theorem mutated_by_two_calls_refuted :
    (run (specApi demoFate) "/work" 9).log.filter Event.isMutation =
      [.addFile "Sources/**", .setDebugDir "Deployment", .addSubProject demoChild] ∧
    (run (specApi demoFate) "/work" 9).log.countP Event.isMutation = 3 ∧
    ¬ ((run (specApi demoFate) "/work" 9).log.countP Event.isMutation = 2) :=
  ⟨rfl, rfl, by decide⟩

/-- C10, amended: in every run in which the creation of the sub-project
completes, the parent is mutated by exactly three calls between its
construction and its hand-off to `resolve`: `addFile`, `setDebugDir` and
`addSubProject`, in that order; the construction is the first call of the run
and the hand-off the last. -/
theorem mutated_by_three_calls {P : Type} (api : ProjectApi P) (dirname : String)
    (k : Nat) (v : P) (h : api.createProject "Kore" dirname = .fulfilled k v) (m : Nat) :
    (run api dirname (7 + k + m)).log.filter Event.isMutation =
      [.addFile "Sources/**", .setDebugDir "Deployment", .addSubProject v] ∧
    (run api dirname (7 + k + m)).log.countP Event.isMutation = 3 ∧
    (run api dirname (7 + k + m)).log.head? = some (.construct "InstancedExample" dirname) ∧
    (run api dirname (7 + k + m)).log.getLast? =
      some (.resolve (some (parentFinal api dirname v))) := by
  rw [run_finished h m]
  exact ⟨rfl, rfl, rfl, rfl⟩

/-- Witness of C10, amended: the run with `demoFate`. -/
theorem mutated_by_three_calls_witness :
    (specApi demoFate).createProject "Kore" "/work" = .fulfilled 2 demoChild ∧
    (run (specApi demoFate) "/work" (7 + 2 + 0)).log.countP Event.isMutation = 3 :=
  ⟨rfl, (mutated_by_three_calls (specApi demoFate) "/work" 2 demoChild rfl 0).2.1⟩

end Korefile
